import Mathlib

/-!
Shallow embedding of `archiveallthethings.py` (the Thingiverse archiver) and
proofs about the claims of its specification.

Python strings are modelled as `List Char` (one entry per code point); Python
`str.lower` is modelled per character on the ASCII range, which covers every
character the program itself introduces.  Machine-level details (actual HTTP,
actual file handles) are modelled by an explicit remote environment, an
explicit filesystem state for the item's output directory, and a trace of the
externally visible actions the orchestrator performs, in program order.
-/

namespace AATT

/-- Python strings, modelled as lists of characters. -/
abbrev Str := List Char

/-- `str.lower` applied to one character (ASCII case mapping, as used by the
characters this program manipulates): `A`..`Z` map to `a`..`z`. -/
def pyLower (c : Char) : Char :=
  if 65 ≤ c.toNat ∧ c.toNat ≤ 90 then Char.ofNat (c.toNat + 32) else c

/-- The characters replaced by `_` in generic mode
(regex `[<>:"/\\|?*]` at line 60 of the source). -/
def illegalChars : List Char :=
  ['<', '>', ':', Char.ofNat 34, '/', '\\', '|', '?', '*']

/-- The characters removed entirely in directory/image mode
(regex at line 55 of the source). -/
def punctChars : List Char :=
  ['<', '>', ':', Char.ofNat 34, '/', '\\', '|', '?', '*', ',', ';', '!', '@',
   '#', '$', '%', '^', '&', '(', ')', '+', '=', '[', ']',
   Char.ofNat 123, Char.ofNat 125, Char.ofNat 39, Char.ofNat 96, '~']

/-- The characters trimmed from both ends (`name.strip(' .')`). -/
def stripChars : List Char := [' ', '.']

/-- Python `name.strip(' .')`: drop the strip characters from both ends. -/
def pyStrip (s : Str) : Str :=
  ((s.dropWhile (fun c => decide (c ∈ stripChars))).reverse.dropWhile
      (fun c => decide (c ∈ stripChars))).reverse

/-- Generic-mode character replacement: illegal characters become `_`. -/
def replIllegal (c : Char) : Char :=
  if c ∈ illegalChars then '_' else c

/-- Directory/image-mode character map: `name.replace(' ', '_').lower()`
applied per character. -/
def dirMap (c : Char) : Char :=
  pyLower (if c = ' ' then '_' else c)

/-- The mode-dependent first pass of `sanitize_filename` (lines 53-60):
directory/image mode removes the punctuation set, then replaces spaces with
`_` and lowercases; generic mode replaces the illegal characters with `_`. -/
def pass1 (name : Str) (for_directory for_image : Bool) : Str :=
  if for_directory || for_image then
    (name.filter (fun c => !decide (c ∈ punctChars))).map dirMap
  else
    name.map replIllegal

/-- `sanitize_filename(name, for_directory, for_image)` from the source:
the mode-dependent pass, then `strip(' .')`, then truncation to 200. -/
def sanitize_filename (name : Str) (for_directory for_image : Bool) : Str :=
  if 200 < (pyStrip (pass1 name for_directory for_image)).length then
    (pyStrip (pass1 name for_directory for_image)).take 200
  else pyStrip (pass1 name for_directory for_image)

/-- `os.path.splitext`'s extension, given the reversed basename: the part
from the last `.` on, empty when there is no dot or when every character
before the last dot is itself a dot (a leading-dots name has no
extension). -/
def extFromRev (revbn : Str) : Str :=
  if (revbn.takeWhile (fun c => c ≠ '.')).length = revbn.length then []
  else if (revbn.drop ((revbn.takeWhile (fun c => c ≠ '.')).length + 1)).all
      (fun c => c = '.') then []
  else '.' :: (revbn.takeWhile (fun c => c ≠ '.')).reverse

/-- `os.path.splitext(p)[1]`: the extension of the last path component
(the basename is what follows the last `/`). -/
def splitextExt (p : Str) : Str :=
  extFromRev (p.reverse.takeWhile (fun c => c ≠ '/'))

/-- A character allowed in a URL scheme (letters, digits, `+`, `-`, `.`). -/
def schemeChar (c : Char) : Bool :=
  c.isAlpha || c.isDigit || c = '+' || c = '-' || c = '.'

/-- Drop a leading `scheme:` from a URL, as `urllib.parse` does: the part
before the first `:` must start with a letter and consist of scheme chars. -/
def dropScheme (url : Str) : Str :=
  let pre := url.takeWhile (fun c => c ≠ ':')
  if (decide (pre.length < url.length) && decide (0 < pre.length) &&
      (match pre.head? with | some c => c.isAlpha | none => false) &&
      pre.all schemeChar) = true then
    url.drop (pre.length + 1)
  else url

/-- `urlparse(url).path`: strip the scheme, then the `//netloc` part (which
ends at the first `/`, `?` or `#`), then the fragment, then the query. -/
def urlparsePath (url : Str) : Str :=
  let u := dropScheme url
  let u :=
    match u with
    | '/' :: '/' :: rest =>
        rest.dropWhile (fun c => c ≠ '/' && c ≠ '?' && c ≠ '#')
    | _ => u
  (u.takeWhile (fun c => c ≠ '#')).takeWhile (fun c => c ≠ '?')

/-- The accepted image extensions (line 497 of the source). -/
def validExtensions : List Str :=
  [".jpg".data, ".jpeg".data, ".png".data, ".gif".data, ".bmp".data,
   ".webp".data, ".svg".data]

/-- The image-name normalization of lines 490-499: sanitize in image mode,
then if the current extension is not accepted, append the (lowercased)
extension of the URL path when accepted, else `.jpg`. -/
def normalizeImageName (imgName downloadUrl : Str) : Str :=
  let safe := sanitize_filename imgName false true
  let urlExt := (splitextExt (urlparsePath downloadUrl)).map pyLower
  let currentExt := (splitextExt safe).map pyLower
  if currentExt ∈ validExtensions then safe
  else safe ++ (if urlExt ∈ validExtensions then urlExt else ".jpg".data)

/-- `s` ends with one of the accepted image extensions. -/
def endsWithValidExt (s : Str) : Bool :=
  validExtensions.any (fun e => decide (s.drop (s.length - e.length) = e))

/-! ## Data model -/

/-- Python truthiness of a `dict.get` result holding a string:
`None` and the empty string are falsy. -/
def truthy : Option Str → Bool
  | none => false
  | some s => !s.isEmpty

/-- Python `a or b` on two optional strings (as in
`file_info.get('download_url') or file_info.get('public_url')`). -/
def pyOr (a b : Option Str) : Option Str :=
  if truthy a then a else b

/-- The Item record (a "Thing"), restricted to the fields the orchestrator
reads: `name` and `modified`, both optional as with `dict.get`. -/
structure Thing where
  name : Option Str
  modified : Option Str
deriving DecidableEq

/-- A file record: `name`, `download_url`, `public_url` as read by the
orchestrator via `dict.get`. -/
structure FileRec where
  name : Option Str
  download_url : Option Str
  public_url : Option Str
deriving DecidableEq

/-- One entry of an image's `sizes` list (`type` and `url`). -/
structure SizeRec where
  type : Option Str
  url : Option Str
deriving DecidableEq

/-- An image record: `name`, the `sizes` variants, a direct `url`, and the
`_safe_name` key the orchestrator injects (absent as fetched). -/
structure ImageRec where
  name : Option Str
  sizes : List SizeRec
  url : Option Str
  safe_name : Option Str
deriving DecidableEq

/-- The Manifest (`metadata.json`): the Item plus the five fetched lists.
Derivative, make and comment records carry no orchestration logic, so they
are modelled as opaque tokens. -/
structure Manifest where
  thing : Thing
  files : List FileRec
  images : List ImageRec
  derivatives : List Nat
  makes : List Nat
  comments : List Nat
deriving DecidableEq

/-- The state of the on-disk `metadata.json`: absent, present but not valid
complete JSON (unreadable/truncated/malformed), or a valid manifest. -/
inductive MetaFile where
  | absent
  | malformed
  | valid (m : Manifest)
deriving DecidableEq

/-- The item's output directory: the `metadata.json` state and the files
present under it (association list from path to an opaque content token). -/
structure FS where
  meta : MetaFile
  files : List (Str × Nat)
deriving DecidableEq

/-- The remote side for a single `download_thing` run: the outcome of the
Item fetch and of each of the five sub-resource fetches, plus the outcome
and content of each byte download.  `Except Unit` models a raised transport
error. -/
structure RemoteEnv where
  thingResult : Except Unit Thing
  filesResult : Except Unit (List FileRec)
  imagesResult : Except Unit (List ImageRec)
  derivativesResult : Except Unit (List Nat)
  makesResult : Except Unit (List Nat)
  commentsResult : Except Unit (List Nat)
  downloadOk : Str → Bool
  content : Str → Nat

/-- The externally visible actions `download_thing` performs, in order. -/
inductive Action where
  | fetchThing
  | fetchFiles
  | fetchImages
  | fetchDerivatives
  | fetchMakes
  | fetchComments
  | download (url : Str) (dest : Str)
  | truncateManifest
  | writeManifestBody (m : Manifest)
  | writeReadme
  | writeComments
  | writeLicense
deriving DecidableEq

/-- `downloadsTo p a`: the action `a` is a byte download targeting path `p`. -/
def downloadsTo (p : Str) : Action → Bool
  | .download _ dest => decide (dest = p)
  | _ => false

/-- Effect of one action on the output directory.  A successful download
writes its destination; a failed one writes nothing (`raise_for_status`
fires before the destination is opened).  Writing the manifest is
`open(path, "w")` — which truncates the file — followed by the body dump. -/
def applyAction (env : RemoteEnv) (fs : FS) : Action → FS
  | .download url dest =>
      if env.downloadOk url then
        { fs with files := (dest, env.content url) :: fs.files }
      else fs
  | .truncateManifest => { fs with meta := .malformed }
  | .writeManifestBody m => { fs with meta := .valid m }
  | _ => fs

/-- `load_existing_metadata`: `None` when `metadata.json` is absent or fails
to parse, the parsed manifest otherwise. -/
def load_existing_metadata : MetaFile → Option Manifest
  | .valid m => some m
  | _ => none

/-- The short-circuit condition of lines 427-434: a previously written
manifest loads, `force` is false, both modification timestamps are truthy
(present and non-empty) and they are equal. -/
def scTaken (t : Thing) (fs : FS) (force : Bool) : Bool :=
  match load_existing_metadata fs.meta with
  | some m =>
      !force && truthy m.thing.modified && truthy t.modified &&
        decide (m.thing.modified = t.modified)
  | none => false

/-- Default file name `f'file_{i}'` for a file record with no name. -/
def defaultFileName (i : Nat) : Str := "file_".data ++ (Nat.repr i).data

/-- Default image name `f'image_{i}'` for an image record with no name. -/
def defaultImageName (i : Nat) : Str := "image_".data ++ (Nat.repr i).data

/-- The files loop (lines 442-458): resolve a URL (`download_url or
public_url`), skip when absent; compute the sanitized destination under
`files/`; skip when it exists and `force` is false; otherwise attempt the
download (a failure is caught and leaves no file). -/
def processFiles (env : RemoteEnv) (force : Bool) :
    Nat → List FileRec → FS → FS × List Action
  | _, [], fs => (fs, [])
  | i, f :: rest, fs =>
    let fileName := f.name.getD (defaultFileName i)
    let url := pyOr f.download_url f.public_url
    if truthy url then
      let u := url.getD []
      let dest := "files/".data ++ sanitize_filename fileName false false
      if (fs.files.lookup dest).isSome && !force then
        processFiles env force (i + 1) rest fs
      else
        let a := Action.download u dest
        let fs1 := applyAction env fs a
        let r := processFiles env force (i + 1) rest fs1
        (r.1, a :: r.2)
    else
      processFiles env force (i + 1) rest fs

/-- Scan `sizes` for the first entry whose `type` equals `pref` and whose
`url` is truthy (inner loop of lines 477-483). -/
def findSize (pref : Str) : List SizeRec → Option Str
  | [] => none
  | s :: rest =>
      if s.type = some pref ∧ truthy s.url then s.url
      else findSize pref rest

/-- URL resolution for an image: prefer `display` over `preview` over
`thumb` among the size variants, then fall back to the direct `url`. -/
def resolveImageUrl (img : ImageRec) : Option Str :=
  match findSize "display".data img.sizes with
  | some u => some u
  | none =>
    match findSize "preview".data img.sizes with
    | some u => some u
    | none =>
      match findSize "thumb".data img.sizes with
      | some u => some u
      | none => img.url

/-- The images loop (lines 469-514): resolve a URL; when truthy, normalize
the name, record it as `_safe_name` on the in-memory record, then apply the
same existence-skip and guarded download as for files, under `images/`.
Returns the final directory state, the download actions, and the annotated
image records. -/
def processImages (env : RemoteEnv) (force : Bool) :
    Nat → List ImageRec → FS → FS × List Action × List ImageRec
  | _, [], fs => (fs, [], [])
  | i, img :: rest, fs =>
    let imgName := img.name.getD (defaultImageName i)
    let url := resolveImageUrl img
    if truthy url then
      let u := url.getD []
      let safe := normalizeImageName imgName u
      let img1 := { img with safe_name := some safe }
      let dest := "images/".data ++ safe
      if (fs.files.lookup dest).isSome && !force then
        let r := processImages env force (i + 1) rest fs
        (r.1, r.2.1, img1 :: r.2.2)
      else
        let a := Action.download u dest
        let fs1 := applyAction env fs a
        let r := processImages env force (i + 1) rest fs1
        (r.1, a :: r.2.1, img1 :: r.2.2)
    else
      let r := processImages env force (i + 1) rest fs
      (r.1, r.2.1, img :: r.2.2)

/-- `except ... : xs = []` around a category fetch: the fetched value on
success, the empty list on a caught transport error. -/
def exceptD {α : Type} (e : Except Unit α) (d : α) : α :=
  match e with
  | .ok a => a
  | .error _ => d

/-- The output directory name: the fresh Item's display name sanitized in
directory mode (with the `f'thing_{id}'` fallback). -/
def outputDirName (t : Thing) (thingId : Nat) : Str :=
  sanitize_filename (t.name.getD ("thing_".data ++ (Nat.repr thingId).data))
    true false

/-- The manifest a non-short-circuited run writes: the fresh Item, the
files/derivatives/makes/comments lists as fetched (empty on a caught
failure), and the image records as annotated by the images loop. -/
def writtenManifest (env : RemoteEnv) (t : Thing) (fs : FS) (force : Bool) :
    Manifest :=
  ⟨t, exceptD env.filesResult [],
    (processImages env force 1 (exceptD env.imagesResult [])
      (processFiles env force 1 (exceptD env.filesResult []) fs).1).2.2,
    exceptD env.derivativesResult [], exceptD env.makesResult [],
    exceptD env.commentsResult []⟩

/-- Result of one `download_thing` run: the final directory state, the
action trace, and the returned directory path. -/
structure RunResult where
  fs : FS
  trace : List Action
  dir : Str
deriving DecidableEq

/-- The non-short-circuited tail of `download_thing` (lines 436-572): the
five category fetches each attempted with failures isolated, the guarded
per-asset downloads, the manifest rewrite (truncate-then-dump), and the
three rendered documents. -/
def fullRun (env : RemoteEnv) (t : Thing) (dir : Str) (fs : FS)
    (force : Bool) : RunResult :=
  let files := exceptD env.filesResult []
  let pf := processFiles env force 1 files fs
  let pi := processImages env force 1 (exceptD env.imagesResult []) pf.1
  let m := writtenManifest env t fs force
  let fs3 := applyAction env pi.1 Action.truncateManifest
  let fs4 := applyAction env fs3 (Action.writeManifestBody m)
  ⟨fs4,
    Action.fetchThing :: Action.fetchFiles ::
      (pf.2 ++ Action.fetchImages ::
        (pi.2.1 ++
          [Action.fetchDerivatives, Action.fetchMakes, Action.fetchComments,
           Action.truncateManifest, Action.writeManifestBody m,
           Action.writeReadme, Action.writeComments, Action.writeLicense])),
    dir⟩

/-- `download_thing(thing_id, token, output_base, force)`: fetch the Item
(fatal on failure), derive the output directory, short-circuit when the
stored and fresh modification timestamps are truthy and equal without
`force`, otherwise run the full archive.  (A parsed-but-empty `metadata.json`
dict, which Python would treat as falsy, is not representable here: a valid
manifest always carries its six keys.) -/
def download_thing (env : RemoteEnv) (thingId : Nat) (fs : FS)
    (force : Bool) : Except Unit RunResult :=
  match env.thingResult with
  | .error e => .error e
  | .ok t =>
    let dir := outputDirName t thingId
    if scTaken t fs force then
      .ok ⟨fs, [Action.fetchThing], dir⟩
    else
      .ok (fullRun env t dir fs force)

/-! ## Batch archiver -/

/-- `DEFAULT_THROTTLE_SECONDS = 5.0` (seconds as exact rationals). -/
def DEFAULT_THROTTLE_SECONDS : ℚ := 5

/-- The externally visible actions of the batch archiver: a listing-page
request, a throttling sleep of so many seconds, and one item archive
(successful or with its failure caught). -/
inductive BatchAction where
  | listReq (page : Nat)
  | sleep (secs : ℚ)
  | archive (id : Nat)
deriving DecidableEq

/-- Is this action a listing-page request? -/
def isListReq : BatchAction → Bool
  | .listReq _ => true
  | _ => false

/-- The pagination loop of `get_user_things` (lines 133-146), as a function
of the page oracle, the current page number and a fuel bound (`none` when
the fuel runs out, which a terminating listing never hits).  Stop on an
empty page (before extending) or on a page shorter than `per_page = 30`
(after extending); otherwise sleep `DEFAULT_THROTTLE_SECONDS` and continue.
A listing-transport error aborts the whole batch upstream (caught in
`download_user_things` to yield no items) and is not exercised by any
claim, so the oracle is total here. -/
def get_user_things_aux (pages : Nat → List Nat) (page : Nat) :
    Nat → Option (List Nat × List BatchAction)
  | 0 => none
  | fuel + 1 =>
    let result := pages page
    if result.isEmpty then some ([], [BatchAction.listReq page])
    else if result.length < 30 then some (result, [BatchAction.listReq page])
    else
      match get_user_things_aux pages (page + 1) fuel with
      | none => none
      | some (rest, tr) =>
          some (result ++ rest,
            BatchAction.listReq page ::
              BatchAction.sleep DEFAULT_THROTTLE_SECONDS :: tr)

/-- `get_user_things(username, token)`: paginate from page 1. -/
def get_user_things (pages : Nat → List Nat) (fuel : Nat) :
    Option (List Nat × List BatchAction) :=
  get_user_things_aux pages 1 fuel

/-- The per-item part of `download_user_things` (lines 592-611): archive
each listed item (failures caught), sleeping `throttle` seconds after every
item but the last. -/
def archiveSleepTrace (throttle : ℚ) : List Nat → List BatchAction
  | [] => []
  | [id] => [BatchAction.archive id]
  | id :: rest =>
      BatchAction.archive id :: BatchAction.sleep throttle ::
        archiveSleepTrace throttle rest

/-- `download_user_things(username, token, output_dir, throttle, force)`:
the listing trace followed by the throttled item archives (an empty listing
archives nothing). -/
def download_user_things (pages : Nat → List Nat) (throttle : ℚ)
    (fuel : Nat) : Option (List BatchAction) :=
  match get_user_things pages fuel with
  | none => none
  | some (things, tr) => some (tr ++ archiveSleepTrace throttle things)

/-- The listing trace shape for `n` pages requested starting at `p`:
requests interleaved with default-throttle sleeps, no trailing sleep. -/
def pageTraceFrom (p : Nat) : Nat → List BatchAction
  | 0 => []
  | 1 => [BatchAction.listReq p]
  | n + 2 =>
      BatchAction.listReq p :: BatchAction.sleep DEFAULT_THROTTLE_SECONDS ::
        pageTraceFrom (p + 1) (n + 1)

/-! ## Supporting lemmas -/

/-- The images loop annotates without adding or dropping records. -/
theorem processImages_length (env : RemoteEnv) (force : Bool) :
    ∀ (i : Nat) (l : List ImageRec) (fs : FS),
      (processImages env force i l fs).2.2.length = l.length := by
  intro i l
  induction l generalizing i with
  | nil => intro fs; rfl
  | cons img rest ih =>
    intro fs
    simp only [processImages]
    split
    · split
      · simp [ih]
      · simp [ih]
    · simp [ih]

/-! ## Claims -/

/-- **C1.** If a previously written manifest loads, `force` is false, and
the stored and freshly fetched modification timestamps are both present
(non-empty) and exactly equal as strings, then `download_thing` returns the
existing directory path, its only remote action is the initial Item fetch
(no sub-resource fetches, no downloads, no manifest rewrite), and the
directory state is untouched. -/
theorem short_circuit_skips_all_work (env : RemoteEnv) (thingId : Nat)
    (fs : FS) (t : Thing) (m : Manifest) (s : Str)
    (ht : env.thingResult = .ok t)
    (hm : load_existing_metadata fs.meta = some m)
    (h1 : m.thing.modified = some s) (h2 : t.modified = some s)
    (hs : s ≠ []) :
    download_thing env thingId fs false =
      .ok ⟨fs, [Action.fetchThing], outputDirName t thingId⟩ := by
  have hsc : scTaken t fs false = true := by
    unfold scTaken
    rw [hm]
    show (!false && truthy m.thing.modified && truthy t.modified &&
      decide (m.thing.modified = t.modified)) = true
    rw [h1, h2]
    cases s with
    | nil => exact absurd rfl hs
    | cons a l => simp [truthy, List.isEmpty]
  unfold download_thing
  rw [ht]
  simp [hsc]

def tsC1 : Str := "2024-01-01T00:00:00Z".data

def thingC1 : Thing := ⟨some "Widget".data, some tsC1⟩

def manifestC1 : Manifest := ⟨thingC1, [], [], [], [], []⟩

def fsC1 : FS := ⟨.valid manifestC1, [("files/old.stl".data, 7)]⟩

def envC1 : RemoteEnv :=
  ⟨.ok thingC1, .ok [⟨some "a.stl".data, some "u".data, none⟩], .ok [],
   .ok [1], .ok [2], .ok [3], fun _ => true, fun _ => 0⟩

/-- Witness for C1: a concrete item whose stored and fresh timestamps agree
short-circuits with the single Item fetch. -/
theorem short_circuit_skips_all_work_witness :
    download_thing envC1 11190 fsC1 false =
      .ok ⟨fsC1, [Action.fetchThing], outputDirName thingC1 11190⟩ :=
  short_circuit_skips_all_work envC1 11190 fsC1 thingC1 manifestC1 tsC1
    rfl rfl rfl rfl (by decide)

/-- **C10.** The short-circuit requires both timestamps to be truthy: when
the existing `metadata.json` is absent, unreadable or malformed (the loader
yields `none`), or when either modification timestamp is missing or empty,
`download_thing` without `force` performs the full run — all five
sub-resource fetches are attempted and the manifest is rewritten.  In
particular two items that both lack a `modified` field are re-fetched
despite their timestamps being vacuously equal. -/
theorem missing_timestamps_force_full_refetch (env : RemoteEnv)
    (thingId : Nat) (fs : FS) (t : Thing) (m : Manifest)
    (ht : env.thingResult = .ok t)
    (hcase : load_existing_metadata fs.meta = none ∨
      (load_existing_metadata fs.meta = some m ∧
        (truthy m.thing.modified = false ∨ truthy t.modified = false))) :
    download_thing env thingId fs false =
      .ok (fullRun env t (outputDirName t thingId) fs false) ∧
    Action.fetchFiles ∈ (fullRun env t (outputDirName t thingId) fs false).trace ∧
    Action.fetchImages ∈ (fullRun env t (outputDirName t thingId) fs false).trace ∧
    Action.fetchDerivatives ∈ (fullRun env t (outputDirName t thingId) fs false).trace ∧
    Action.fetchMakes ∈ (fullRun env t (outputDirName t thingId) fs false).trace ∧
    Action.fetchComments ∈ (fullRun env t (outputDirName t thingId) fs false).trace ∧
    Action.truncateManifest ∈ (fullRun env t (outputDirName t thingId) fs false).trace ∧
    Action.writeManifestBody (writtenManifest env t fs false) ∈
      (fullRun env t (outputDirName t thingId) fs false).trace := by
  have hsc : scTaken t fs false = false := by
    unfold scTaken
    rcases hcase with h | ⟨h, htr⟩
    · rw [h]
    · rw [h]
      show (!false && truthy m.thing.modified && truthy t.modified &&
        decide (m.thing.modified = t.modified)) = false
      rcases htr with h1 | h1 <;> simp [h1]
  refine ⟨?_, ?_, ?_, ?_, ?_, ?_, ?_, ?_⟩
  · unfold download_thing
    rw [ht]
    simp [hsc]
  all_goals simp [fullRun, List.mem_append, List.mem_cons]

def thingC10 : Thing := ⟨some "Gadget".data, none⟩

def manifestC10 : Manifest := ⟨⟨some "Gadget".data, none⟩, [], [], [], [], []⟩

def fsC10 : FS := ⟨.valid manifestC10, []⟩

def envC10 : RemoteEnv :=
  ⟨.ok thingC10, .ok [], .ok [], .ok [], .ok [], .ok [],
   fun _ => true, fun _ => 0⟩

/-- Witness for C10: a stored manifest and a fresh Item that both lack the
`modified` field still go through the full run without `force`. -/
theorem missing_timestamps_force_full_refetch_witness :
    download_thing envC10 3 fsC10 false =
      .ok (fullRun envC10 thingC10 (outputDirName thingC10 3) fsC10 false) ∧
    Action.fetchFiles ∈ (fullRun envC10 thingC10 (outputDirName thingC10 3) fsC10 false).trace ∧
    Action.fetchImages ∈ (fullRun envC10 thingC10 (outputDirName thingC10 3) fsC10 false).trace ∧
    Action.fetchDerivatives ∈ (fullRun envC10 thingC10 (outputDirName thingC10 3) fsC10 false).trace ∧
    Action.fetchMakes ∈ (fullRun envC10 thingC10 (outputDirName thingC10 3) fsC10 false).trace ∧
    Action.fetchComments ∈ (fullRun envC10 thingC10 (outputDirName thingC10 3) fsC10 false).trace ∧
    Action.truncateManifest ∈ (fullRun envC10 thingC10 (outputDirName thingC10 3) fsC10 false).trace ∧
    Action.writeManifestBody (writtenManifest envC10 thingC10 fsC10 false) ∈
      (fullRun envC10 thingC10 (outputDirName thingC10 3) fsC10 false).trace :=
  missing_timestamps_force_full_refetch envC10 3 fsC10 thingC10 manifestC10
    rfl (Or.inr ⟨rfl, Or.inl rfl⟩)

/-- **C2.** Once the Item fetch succeeds, a transport failure in any one
sub-resource category is caught inside the orchestrator: the run still
returns `.ok` with a complete directory, the manifest holds exactly the
fetched value of each category (so the empty list for a failed one, the
fetched lists for the others, with the image records merely annotated), and
every category fetch is still attempted. -/
theorem category_failure_isolated (env : RemoteEnv) (thingId : Nat)
    (fs : FS) (force : Bool) (t : Thing)
    (ht : env.thingResult = .ok t)
    (hsc : scTaken t fs force = false) :
    download_thing env thingId fs force =
      .ok (fullRun env t (outputDirName t thingId) fs force) ∧
    (fullRun env t (outputDirName t thingId) fs force).fs.meta =
      .valid (writtenManifest env t fs force) ∧
    (writtenManifest env t fs force).thing = t ∧
    (writtenManifest env t fs force).files = exceptD env.filesResult [] ∧
    (writtenManifest env t fs force).derivatives =
      exceptD env.derivativesResult [] ∧
    (writtenManifest env t fs force).makes = exceptD env.makesResult [] ∧
    (writtenManifest env t fs force).comments =
      exceptD env.commentsResult [] ∧
    (writtenManifest env t fs force).images.length =
      (exceptD env.imagesResult []).length ∧
    Action.fetchFiles ∈ (fullRun env t (outputDirName t thingId) fs force).trace ∧
    Action.fetchImages ∈ (fullRun env t (outputDirName t thingId) fs force).trace ∧
    Action.fetchDerivatives ∈ (fullRun env t (outputDirName t thingId) fs force).trace ∧
    Action.fetchMakes ∈ (fullRun env t (outputDirName t thingId) fs force).trace ∧
    Action.fetchComments ∈ (fullRun env t (outputDirName t thingId) fs force).trace := by
  refine ⟨?_, rfl, rfl, rfl, rfl, rfl, rfl, ?_, ?_, ?_, ?_, ?_, ?_⟩
  · unfold download_thing
    rw [ht]
    simp [hsc]
  · exact processImages_length env force 1 (exceptD env.imagesResult []) _
  all_goals simp [fullRun, List.mem_append, List.mem_cons]

def thingC2 : Thing := ⟨some "Bracket".data, some "2024-05-05T00:00:00Z".data⟩

def fileC2 : FileRec :=
  ⟨some "part.stl".data, some "https://h/f/part.stl".data, none⟩

def imgC2 : ImageRec :=
  ⟨some "Photo".data,
   [⟨some "display".data, some "https://h/i/photo_display.jpg".data⟩],
   none, none⟩

def envC2 : RemoteEnv :=
  ⟨.ok thingC2, .ok [fileC2], .ok [imgC2], .ok [10], .ok [20], .error (),
   fun _ => true, fun _ => 5⟩

def fsC2 : FS := ⟨.absent, []⟩

/-- Witness for C2: with only the comments fetch failing for item 11190,
the archive completes with an empty comments list and non-empty files and
images in the manifest. -/
theorem category_failure_isolated_witness :
    (download_thing envC2 11190 fsC2 false =
      .ok (fullRun envC2 thingC2 (outputDirName thingC2 11190) fsC2 false) ∧
    (fullRun envC2 thingC2 (outputDirName thingC2 11190) fsC2 false).fs.meta =
      .valid (writtenManifest envC2 thingC2 fsC2 false) ∧
    (writtenManifest envC2 thingC2 fsC2 false).thing = thingC2 ∧
    (writtenManifest envC2 thingC2 fsC2 false).files = exceptD envC2.filesResult [] ∧
    (writtenManifest envC2 thingC2 fsC2 false).derivatives =
      exceptD envC2.derivativesResult [] ∧
    (writtenManifest envC2 thingC2 fsC2 false).makes = exceptD envC2.makesResult [] ∧
    (writtenManifest envC2 thingC2 fsC2 false).comments =
      exceptD envC2.commentsResult [] ∧
    (writtenManifest envC2 thingC2 fsC2 false).images.length =
      (exceptD envC2.imagesResult []).length ∧
    Action.fetchFiles ∈ (fullRun envC2 thingC2 (outputDirName thingC2 11190) fsC2 false).trace ∧
    Action.fetchImages ∈ (fullRun envC2 thingC2 (outputDirName thingC2 11190) fsC2 false).trace ∧
    Action.fetchDerivatives ∈ (fullRun envC2 thingC2 (outputDirName thingC2 11190) fsC2 false).trace ∧
    Action.fetchMakes ∈ (fullRun envC2 thingC2 (outputDirName thingC2 11190) fsC2 false).trace ∧
    Action.fetchComments ∈ (fullRun envC2 thingC2 (outputDirName thingC2 11190) fsC2 false).trace) ∧
    (writtenManifest envC2 thingC2 fsC2 false).comments = [] ∧
    (writtenManifest envC2 thingC2 fsC2 false).files = [fileC2] ∧
    (writtenManifest envC2 thingC2 fsC2 false).images.length = 1 :=
  ⟨category_failure_isolated envC2 11190 fsC2 false thingC2 rfl rfl,
   rfl, rfl, by decide⟩

/-! ## Pagination and throttling -/

/-- Concatenation, in order, of `n` listing pages starting at page `p`. -/
def joinPagesFrom (pages : Nat → List Nat) (p : Nat) : Nat → List Nat
  | 0 => []
  | n + 1 => pages p ++ joinPagesFrom pages (p + 1) n

/-- Pagination unrolled: when the first `n` pages from `p` are full (30
items) and page `p + n` is short, the loop returns the concatenation of the
`n + 1` pages it requested and the alternating request/sleep trace. -/
theorem get_user_things_aux_spec (pages : Nat → List Nat) :
    ∀ (n p fuel : Nat),
      (∀ k, k < n → (pages (p + k)).length = 30) →
      (pages (p + n)).length < 30 →
      n < fuel →
      get_user_things_aux pages p fuel =
        some (joinPagesFrom pages p (n + 1), pageTraceFrom p (n + 1)) := by
  intro n
  induction n with
  | zero =>
    intro p fuel hfull hlast hfuel
    rw [Nat.add_zero] at hlast
    match fuel, hfuel with
    | f + 1, _ =>
      simp only [get_user_things_aux]
      by_cases he : (pages p).isEmpty = true
      · have hp : pages p = [] := by
          cases hp : pages p with
          | nil => rfl
          | cons a l => rw [hp] at he; exact absurd he (by simp)
        rw [if_pos he]
        simp [joinPagesFrom, pageTraceFrom, hp]
      · rw [if_neg he, if_pos hlast]
        simp [joinPagesFrom, pageTraceFrom]
  | succ n ih =>
    intro p fuel hfull hlast hfuel
    match fuel, hfuel with
    | f + 1, hfuel =>
      have h30 : (pages p).length = 30 := by
        have := hfull 0 (Nat.succ_pos n)
        rwa [Nat.add_zero] at this
      have hrec := ih (p + 1) f
        (fun k hk => by
          have e : p + 1 + k = p + (k + 1) := by omega
          rw [e]
          exact hfull (k + 1) (Nat.succ_lt_succ hk))
        (by
          have e : p + 1 + n = p + (n + 1) := by omega
          rw [e]
          exact hlast)
        (Nat.lt_of_succ_lt_succ hfuel)
      simp only [get_user_things_aux]
      have hne : ¬(pages p).isEmpty = true := by
        intro hco
        rw [List.isEmpty_iff] at hco
        rw [hco] at h30
        exact absurd h30 (by decide)
      have hnlt : ¬(pages p).length < 30 := by
        rw [h30]
        exact Nat.lt_irrefl 30
      rw [if_neg hne, if_neg hnlt, hrec]
      rfl

/-- Exactly `n + 1` listing requests occur in the `n + 1`-page trace. -/
theorem countP_pageTraceFrom :
    ∀ (n p : Nat), (pageTraceFrom p (n + 1)).countP isListReq = n + 1 := by
  intro n
  induction n with
  | zero => intro p; rfl
  | succ n ih =>
    intro p
    show (BatchAction.listReq p :: BatchAction.sleep DEFAULT_THROTTLE_SECONDS ::
      pageTraceFrom (p + 1) (n + 1)).countP isListReq = n + 2
    simp [List.countP_cons, isListReq, ih]

/-- **C9.** The account listing paginates at the fixed page size 30 and
stops exactly at the first page that is short or empty: with `n` full pages
followed by a short page, exactly `n + 1` listing requests are made, and
the returned list is the concatenation of the requested pages in order. -/
theorem pagination_terminates_on_short_page (pages : Nat → List Nat)
    (fuel n : Nat)
    (hfull : ∀ k, k < n → (pages (1 + k)).length = 30)
    (hlast : (pages (1 + n)).length < 30)
    (hfuel : n < fuel) :
    get_user_things pages fuel =
      some (joinPagesFrom pages 1 (n + 1), pageTraceFrom 1 (n + 1)) ∧
    (pageTraceFrom 1 (n + 1)).countP isListReq = n + 1 :=
  ⟨get_user_things_aux_spec pages n 1 fuel hfull hlast hfuel,
   countP_pageTraceFrom n 1⟩

def pagesC9 : Nat → List Nat := fun p =>
  if p = 1 then List.range 30
  else if p = 2 then (List.range 30).map (fun k => k + 100)
  else if p = 3 then List.range 12
  else []

/-- Witness for C9: a listing with pages of sizes 30, 30, 12 is consumed in
exactly 3 requests and yields the 72 items in order. -/
theorem pagination_terminates_on_short_page_witness :
    get_user_things pagesC9 4 =
      some (joinPagesFrom pagesC9 1 3, pageTraceFrom 1 3) ∧
    (pageTraceFrom 1 3).countP isListReq = 3 :=
  pagination_terminates_on_short_page pagesC9 4 2
    (by intro k hk; interval_cases k <;> decide) (by decide) (by decide)

def pagesC6 : Nat → List Nat := fun p =>
  if p = 1 then List.range 30
  else if p = 2 then [100, 101, 102, 103, 104]
  else []

/-- Counterexample to C6 as stated: run the batch archiver with
`throttleSeconds = 2` over a two-page listing.  The only sleep between the
two successive listing-page requests is the fixed default of 5 seconds —
no sleep of `throttleSeconds` occurs between them, since the pagination
loop ignores the `--throttle` argument. -/
theorem throttle_between_pages_counterexample :
    download_user_things pagesC6 2 3 =
      some (BatchAction.listReq 1 :: BatchAction.sleep 5 ::
        BatchAction.listReq 2 ::
        archiveSleepTrace 2 (joinPagesFrom pagesC6 1 2)) ∧
    BatchAction.sleep 2 ∉
      [BatchAction.listReq 1, BatchAction.sleep 5, BatchAction.listReq 2] ∧
    (5 : ℚ) ≠ 2 := by
  refine ⟨by decide, by decide, by norm_num⟩

/-- Listing traces produced by the pagination loop always have the
alternating request/default-sleep shape with no trailing sleep. -/
theorem get_user_things_aux_shape (pages : Nat → List Nat) :
    ∀ (fuel p : Nat) (things : List Nat) (tr : List BatchAction),
      get_user_things_aux pages p fuel = some (things, tr) →
      ∃ n, tr = pageTraceFrom p (n + 1) := by
  intro fuel
  induction fuel with
  | zero =>
    intro p things tr h
    exact absurd h (by simp [get_user_things_aux])
  | succ f ih =>
    intro p things tr h
    simp only [get_user_things_aux] at h
    split at h
    · exact ⟨0, (Prod.mk.injEq _ _ _ _ ▸ (Option.some.injEq _ _ ▸ h)).2.symm⟩
    · split at h
      · exact ⟨0, (Prod.mk.injEq _ _ _ _ ▸ (Option.some.injEq _ _ ▸ h)).2.symm⟩
      · cases hrec : get_user_things_aux pages (p + 1) f with
        | none => rw [hrec] at h; exact absurd h (by simp)
        | some v =>
          rw [hrec] at h
          obtain ⟨rest, tr'⟩ := v
          obtain ⟨m, hm⟩ := ih (p + 1) rest tr' hrec
          have htr : tr = BatchAction.listReq p ::
              BatchAction.sleep DEFAULT_THROTTLE_SECONDS :: tr' :=
            ((Prod.mk.injEq _ _ _ _ ▸ (Option.some.injEq _ _ ▸ h)).2).symm
          exact ⟨m + 1, by rw [htr, hm]; rfl⟩

/-- **C6 (amended).** In the batch archiver the sleep between successive
listing-page requests is the fixed default of 5 seconds (the pagination
loop ignores `throttleSeconds`), a sleep of `throttleSeconds` occurs
between successive item archives, and no sleep follows the final item or
the final page: the whole trace is the alternating listing shape followed
by the alternating archive shape. -/
theorem throttle_sleeps_amended (pages : Nat → List Nat) (throttle : ℚ)
    (fuel : Nat) (things : List Nat) (ltr : List BatchAction)
    (h : get_user_things pages fuel = some (things, ltr)) :
    download_user_things pages throttle fuel =
      some (ltr ++ archiveSleepTrace throttle things) ∧
    ltr = pageTraceFrom 1 (ltr.countP isListReq) := by
  constructor
  · unfold download_user_things
    rw [h]
  · obtain ⟨n, hn⟩ := get_user_things_aux_shape pages fuel 1 things ltr h
    rw [hn, countP_pageTraceFrom n 1]

def pagesW6 : Nat → List Nat := fun p => if p = 1 then [7, 8, 9] else []

/-- Witness for the amended C6: a one-page listing of three items archived
with `throttleSeconds = 3/2` sleeps only between the archives. -/
theorem throttle_sleeps_amended_witness :
    download_user_things pagesW6 (3 / 2 : ℚ) 2 =
      some ([BatchAction.listReq 1] ++
        archiveSleepTrace (3 / 2 : ℚ) [7, 8, 9]) ∧
    [BatchAction.listReq 1] =
      pageTraceFrom 1
        (([BatchAction.listReq 1] : List BatchAction).countP isListReq) :=
  throttle_sleeps_amended pagesW6 (3 / 2 : ℚ) 2 [7, 8, 9]
    [BatchAction.listReq 1] (by decide)

/-! ## Existing assets are never clobbered (force = false) -/

/-- A download aimed somewhere else never counts as a download of `p`. -/
theorem countP_downloadsTo_cons (p u dest : Str) (l : List Action)
    (h : l.countP (downloadsTo p) = 0) (hne : dest ≠ p) :
    (Action.download u dest :: l).countP (downloadsTo p) = 0 := by
  rw [List.countP_cons, h]
  simp [downloadsTo, decide_eq_false hne]

/-- With `force` false the files loop never writes over an existing path:
an existing entry keeps its content and no download targets it. -/
theorem processFiles_preserves (env : RemoteEnv) (p : Str) (v : Nat) :
    ∀ (i : Nat) (l : List FileRec) (fs : FS),
      fs.files.lookup p = some v →
      (processFiles env false i l fs).1.files.lookup p = some v ∧
      (processFiles env false i l fs).2.countP (downloadsTo p) = 0 := by
  intro i l
  induction l generalizing i with
  | nil => intro fs h; exact ⟨h, rfl⟩
  | cons f rest ih =>
    intro fs h
    simp only [processFiles]
    split
    · split
      · exact ih (i + 1) fs h
      · rename_i hex
        have hnone : fs.files.lookup ("files/".data ++
            sanitize_filename (f.name.getD (defaultFileName i)) false false) =
            none := by
          rcases ho : fs.files.lookup ("files/".data ++
              sanitize_filename (f.name.getD (defaultFileName i)) false false)
            with _ | w
          · rfl
          · exact absurd (by rw [ho]; rfl) hex
        have hne : ("files/".data ++
            sanitize_filename (f.name.getD (defaultFileName i)) false false) ≠
            p := by
          intro he
          rw [he, h] at hnone
          exact Option.noConfusion hnone
        have h1 : (applyAction env fs
            (Action.download ((pyOr f.download_url f.public_url).getD [])
              ("files/".data ++
                sanitize_filename (f.name.getD (defaultFileName i)) false
                  false))).files.lookup p = some v := by
          simp only [applyAction]
          split
          · simp only [List.lookup]
            rw [beq_eq_false_iff_ne.mpr (fun he => hne he.symm)]
            exact h
          · exact h
        have hrec := ih (i + 1) _ h1
        exact ⟨hrec.1, countP_downloadsTo_cons p _ _ _ hrec.2 hne⟩
    · exact ih (i + 1) fs h

/-- With `force` false the images loop never writes over an existing path. -/
theorem processImages_preserves (env : RemoteEnv) (p : Str) (v : Nat) :
    ∀ (i : Nat) (l : List ImageRec) (fs : FS),
      fs.files.lookup p = some v →
      (processImages env false i l fs).1.files.lookup p = some v ∧
      (processImages env false i l fs).2.1.countP (downloadsTo p) = 0 := by
  intro i l
  induction l generalizing i with
  | nil => intro fs h; exact ⟨h, rfl⟩
  | cons img rest ih =>
    intro fs h
    simp only [processImages]
    split
    · split
      · exact ih (i + 1) fs h
      · rename_i hex
        have hnone : fs.files.lookup ("images/".data ++
            normalizeImageName (img.name.getD (defaultImageName i))
              ((resolveImageUrl img).getD [])) = none := by
          rcases ho : fs.files.lookup ("images/".data ++
              normalizeImageName (img.name.getD (defaultImageName i))
                ((resolveImageUrl img).getD [])) with _ | w
          · rfl
          · exact absurd (by rw [ho]; rfl) hex
        have hne : ("images/".data ++
            normalizeImageName (img.name.getD (defaultImageName i))
              ((resolveImageUrl img).getD [])) ≠ p := by
          intro he
          rw [he, h] at hnone
          exact Option.noConfusion hnone
        have h1 : (applyAction env fs
            (Action.download ((resolveImageUrl img).getD [])
              ("images/".data ++
                normalizeImageName (img.name.getD (defaultImageName i))
                  ((resolveImageUrl img).getD [])))).files.lookup p =
            some v := by
          simp only [applyAction]
          split
          · simp only [List.lookup]
            rw [beq_eq_false_iff_ne.mpr (fun he => hne he.symm)]
            exact h
          · exact h
        have hrec := ih (i + 1) _ h1
        exact ⟨hrec.1, countP_downloadsTo_cons p _ _ _ hrec.2 hne⟩
    · exact ih (i + 1) fs h

/-- A successful Item fetch reduces `download_thing` to the short-circuit
test between the existing-directory result and the full run. -/
theorem download_thing_ok (env : RemoteEnv) (thingId : Nat) (fs : FS)
    (force : Bool) (t : Thing) (ht : env.thingResult = .ok t) :
    download_thing env thingId fs force =
      if scTaken t fs force then
        .ok ⟨fs, [Action.fetchThing], outputDirName t thingId⟩
      else .ok (fullRun env t (outputDirName t thingId) fs force) := by
  unfold download_thing
  rw [ht]

/-- **C8.** Re-running `download_thing` without `force` leaves every asset
already on disk untouched: its content token is unchanged in the final
state and no download action of the run targets its path.  The run only
adds missing assets and rewrites the manifest and documents. -/
theorem existing_assets_untouched (env : RemoteEnv) (thingId : Nat)
    (fs : FS) (t : Thing) (r : RunResult) (p : Str) (v : Nat)
    (ht : env.thingResult = .ok t)
    (hr : download_thing env thingId fs false = .ok r)
    (hp : fs.files.lookup p = some v) :
    r.fs.files.lookup p = some v ∧
    r.trace.countP (downloadsTo p) = 0 := by
  rw [download_thing_ok env thingId fs false t ht] at hr
  by_cases hsc : scTaken t fs false = true
  · rw [if_pos hsc] at hr
    have hr' : r = ⟨fs, [Action.fetchThing], outputDirName t thingId⟩ :=
      ((Except.ok.injEq _ _).mp hr).symm
    subst hr'
    exact ⟨hp, rfl⟩
  · rw [if_neg hsc] at hr
    have hr' : r = fullRun env t (outputDirName t thingId) fs false :=
      ((Except.ok.injEq _ _).mp hr).symm
    subst hr'
    have h1 := processFiles_preserves env p v 1 (exceptD env.filesResult []) fs hp
    have h2 := processImages_preserves env p v 1 (exceptD env.imagesResult [])
      (processFiles env false 1 (exceptD env.filesResult []) fs).1 h1.1
    refine ⟨h2.1, ?_⟩
    simp [fullRun, List.countP_append, List.countP_cons, downloadsTo,
      h1.2, h2.2]

def thingC8 : Thing := ⟨some "Clip".data, some "2024-02-02T00:00:00Z".data⟩

def fileC8a : FileRec :=
  ⟨some "model.stl".data, some "https://h/f/model.stl".data, none⟩

def fileC8b : FileRec :=
  ⟨some "new part.stl".data, some "https://h/f/new.stl".data, none⟩

def envC8 : RemoteEnv :=
  ⟨.ok thingC8, .ok [fileC8a, fileC8b], .ok [], .ok [], .ok [], .ok [],
   fun _ => true, fun _ => 99⟩

def pC8 : Str := "files/model.stl".data

def fsC8 : FS := ⟨.absent, [(pC8, 42)]⟩

/-- Extract the result of a successful run. -/
def runOf (e : Except Unit RunResult) : RunResult :=
  match e with
  | .ok r => r
  | .error _ => ⟨⟨MetaFile.absent, []⟩, [], []⟩

def rC8 : RunResult := runOf (download_thing envC8 6 fsC8 false)

/-- Witness for C8: `files/model.stl` already on disk (content token 42) is
neither re-downloaded nor altered by a full re-run without `force`. -/
theorem existing_assets_untouched_witness :
    rC8.fs.files.lookup pC8 = some 42 ∧
    rC8.trace.countP (downloadsTo pC8) = 0 :=
  existing_assets_untouched envC8 6 fsC8 thingC8 rC8 pC8 42 rfl rfl rfl

/-! ## Manifest write discipline -/

/-- Every action the files loop emits is a download. -/
theorem processFiles_trace_downloads (env : RemoteEnv) (force : Bool) :
    ∀ (i : Nat) (l : List FileRec) (fs : FS) (a : Action),
      a ∈ (processFiles env force i l fs).2 → ∃ u d, a = Action.download u d := by
  intro i l
  induction l generalizing i with
  | nil => intro fs a ha; exact absurd ha (List.not_mem_nil a)
  | cons f rest ih =>
    intro fs a ha
    simp only [processFiles] at ha
    split at ha
    · split at ha
      · exact ih (i + 1) fs a ha
      · rcases List.mem_cons.mp ha with h | h
        · exact ⟨_, _, h⟩
        · exact ih (i + 1) _ a h
    · exact ih (i + 1) fs a ha

/-- Every action the images loop emits is a download. -/
theorem processImages_trace_downloads (env : RemoteEnv) (force : Bool) :
    ∀ (i : Nat) (l : List ImageRec) (fs : FS) (a : Action),
      a ∈ (processImages env force i l fs).2.1 →
      ∃ u d, a = Action.download u d := by
  intro i l
  induction l generalizing i with
  | nil => intro fs a ha; exact absurd ha (List.not_mem_nil a)
  | cons img rest ih =>
    intro fs a ha
    simp only [processImages] at ha
    split at ha
    · split at ha
      · exact ih (i + 1) fs a ha
      · rcases List.mem_cons.mp ha with h | h
        · exact ⟨_, _, h⟩
        · exact ih (i + 1) _ a h
    · exact ih (i + 1) fs a ha

/-- The only manifest body a run ever writes is `writtenManifest`. -/
theorem trace_manifest_unique (env : RemoteEnv) (thingId : Nat) (fs : FS)
    (force : Bool) (t : Thing) (r : RunResult) (m : Manifest)
    (ht : env.thingResult = .ok t)
    (hr : download_thing env thingId fs force = .ok r)
    (hm : Action.writeManifestBody m ∈ r.trace) :
    m = writtenManifest env t fs force := by
  rw [download_thing_ok env thingId fs force t ht] at hr
  by_cases hsc : scTaken t fs force = true
  · rw [if_pos hsc] at hr
    have hr' : r = ⟨fs, [Action.fetchThing], outputDirName t thingId⟩ :=
      ((Except.ok.injEq _ _).mp hr).symm
    subst hr'
    rcases List.mem_cons.mp hm with h | h
    · exact Action.noConfusion h
    · exact absurd h (List.not_mem_nil _)
  · rw [if_neg hsc] at hr
    have hr' : r = fullRun env t (outputDirName t thingId) fs force :=
      ((Except.ok.injEq _ _).mp hr).symm
    subst hr'
    simp only [fullRun, List.mem_cons, List.mem_append, List.not_mem_nil,
      or_false] at hm
    rcases hm with h | h | h | h | h | h | h | h | h | h | h | h | h
    all_goals first
      | exact Action.noConfusion h
      | exact Action.writeManifestBody.inj h
      | (obtain ⟨u, d, hd⟩ := processFiles_trace_downloads env force 1 _ fs _ h
         exact Action.noConfusion hd)
      | (obtain ⟨u, d, hd⟩ := processImages_trace_downloads env force 1 _ _ _ h
         exact Action.noConfusion hd)

/-- A download leaves `metadata.json` alone, whether it succeeds or not. -/
theorem applyAction_meta_download (env : RemoteEnv) (fs : FS) (u d : Str) :
    (applyAction env fs (Action.download u d)).meta = fs.meta := by
  show (if env.downloadOk u = true then
    { fs with files := (d, env.content u) :: fs.files } else fs).meta = fs.meta
  split <;> rfl

/-- Actions other than the manifest truncate and body dump leave
`metadata.json` alone. -/
theorem foldl_meta_cases (env : RemoteEnv) :
    ∀ (tr : List Action) (fs : FS),
      (tr.foldl (applyAction env) fs).meta = fs.meta ∨
      (tr.foldl (applyAction env) fs).meta = MetaFile.malformed ∨
      ∃ m, Action.writeManifestBody m ∈ tr ∧
        (tr.foldl (applyAction env) fs).meta = MetaFile.valid m := by
  intro tr
  induction tr with
  | nil => intro fs; exact Or.inl rfl
  | cons a rest ih =>
    intro fs
    rw [List.foldl_cons]
    rcases ih (applyAction env fs a) with h | h | ⟨m, hm, h⟩
    · cases a with
      | download u d =>
        left
        rw [h]
        exact applyAction_meta_download env fs u d
      | truncateManifest => right; left; rw [h]; rfl
      | writeManifestBody m' =>
        right; right
        exact ⟨m', List.mem_cons_self _ _, by rw [h]; rfl⟩
      | fetchThing => left; rw [h]; rfl
      | fetchFiles => left; rw [h]; rfl
      | fetchImages => left; rw [h]; rfl
      | fetchDerivatives => left; rw [h]; rfl
      | fetchMakes => left; rw [h]; rfl
      | fetchComments => left; rw [h]; rfl
      | writeReadme => left; rw [h]; rfl
      | writeComments => left; rw [h]; rfl
      | writeLicense => left; rw [h]; rfl
    · right; left; exact h
    · right; right; exact ⟨m, List.mem_cons_of_mem a hm, h⟩

def thingC3 : Thing := ⟨some "Stand".data, some "2024-06-01T00:00:00Z".data⟩

def mOldC3 : Manifest :=
  ⟨⟨some "Stand".data, some "2024-01-01T00:00:00Z".data⟩, [], [], [], [], []⟩

def fsC3 : FS := ⟨.valid mOldC3, []⟩

def envC3 : RemoteEnv :=
  ⟨.ok thingC3, .ok [], .ok [], .ok [], .ok [], .ok [],
   fun _ => true, fun _ => 0⟩

def rC3 : RunResult := runOf (download_thing envC3 9 fsC3 false)

/-- Counterexample to C3 as stated: the manifest is written by
`open(metadata_path, "w")` followed by an incremental `json.dump`, not by a
write-then-publish rename.  On a concrete changed item, stopping the run
right after the seventh action (the `open`-truncation of `metadata.json`)
leaves an on-disk manifest state that is neither absent nor the previous
successfully written manifest — a half-written manifest is observable. -/
theorem manifest_write_not_atomic_counterexample :
    download_thing envC3 9 fsC3 false = .ok rC3 ∧
    fsC3.meta = MetaFile.valid mOldC3 ∧
    ((rC3.trace.take 7).foldl (applyAction envC3) fsC3).meta =
      MetaFile.malformed ∧
    MetaFile.malformed ≠ MetaFile.absent ∧
    MetaFile.malformed ≠ MetaFile.valid mOldC3 :=
  ⟨rfl, rfl, by decide, by decide, by decide⟩

/-- **C3 (amended).** The manifest write is a direct truncate-and-dump, so
abrupt termination can expose a half-written `metadata.json`; however at
every prefix of the run the on-disk state is the previous one, or a
partial/truncated file that `load_existing_metadata` reads as `none` (so
the next incremental check simply falls back to a full re-fetch rather
than misreading it), or the completed new manifest. -/
theorem manifest_prefix_states (env : RemoteEnv) (thingId : Nat) (fs : FS)
    (force : Bool) (t : Thing) (r : RunResult) (k : Nat)
    (ht : env.thingResult = .ok t)
    (hr : download_thing env thingId fs force = .ok r) :
    ((r.trace.take k).foldl (applyAction env) fs).meta = fs.meta ∨
    (((r.trace.take k).foldl (applyAction env) fs).meta =
        MetaFile.malformed ∧
      load_existing_metadata
        ((r.trace.take k).foldl (applyAction env) fs).meta = none) ∨
    ((r.trace.take k).foldl (applyAction env) fs).meta =
      MetaFile.valid (writtenManifest env t fs force) := by
  rcases foldl_meta_cases env (r.trace.take k) fs with h | h | ⟨m, hm, h⟩
  · exact Or.inl h
  · exact Or.inr (Or.inl ⟨h, by rw [h]; rfl⟩)
  · right; right
    rw [h, trace_manifest_unique env thingId fs force t r m ht hr
      (List.take_subset k r.trace hm)]

/-- Witness for the amended C3: on the concrete changed item, the state
after the first 8 actions (the body dump just completed) is the new
manifest; the disjunction holds there. -/
theorem manifest_prefix_states_witness :
    ((rC3.trace.take 8).foldl (applyAction envC3) fsC3).meta = fsC3.meta ∨
    (((rC3.trace.take 8).foldl (applyAction envC3) fsC3).meta =
        MetaFile.malformed ∧
      load_existing_metadata
        ((rC3.trace.take 8).foldl (applyAction envC3) fsC3).meta = none) ∨
    ((rC3.trace.take 8).foldl (applyAction envC3) fsC3).meta =
      MetaFile.valid (writtenManifest envC3 thingC3 fsC3 false) :=
  manifest_prefix_states envC3 9 fsC3 false thingC3 rC3 8 rfl rfl

/-! ## Character-level facts about the sanitizer -/

/-- Lowercasing never produces a character of the punctuation set. -/
theorem pyLower_not_mem_punct (c : Char) (h : c ∉ punctChars) :
    pyLower c ∉ punctChars := by
  unfold pyLower
  split
  · rename_i hc
    obtain ⟨h1, h2⟩ := hc
    obtain ⟨n, hn⟩ : ∃ n, n = c.toNat := ⟨c.toNat, rfl⟩
    rw [← hn] at h1 h2
    rw [← hn]
    interval_cases n <;> decide
  · exact h

/-- Lowercasing never produces a space from a non-space. -/
theorem pyLower_ne_space (c : Char) (h : c ≠ ' ') : pyLower c ≠ ' ' := by
  unfold pyLower
  split
  · rename_i hc
    obtain ⟨h1, h2⟩ := hc
    obtain ⟨n, hn⟩ : ∃ n, n = c.toNat := ⟨c.toNat, rfl⟩
    rw [← hn] at h1 h2
    rw [← hn]
    interval_cases n <;> decide
  · exact h

/-- Lowercasing is idempotent per character. -/
theorem pyLower_idem (c : Char) : pyLower (pyLower c) = pyLower c := by
  by_cases hc : 65 ≤ c.toNat ∧ c.toNat ≤ 90
  · have h : pyLower c = Char.ofNat (c.toNat + 32) := by
      unfold pyLower
      rw [if_pos hc]
    rw [h]
    obtain ⟨h1, h2⟩ := hc
    obtain ⟨n, hn⟩ : ∃ n, n = c.toNat := ⟨c.toNat, rfl⟩
    rw [← hn] at h1 h2
    rw [← hn]
    interval_cases n <;> decide
  · have h : pyLower c = c := by
      unfold pyLower
      rw [if_neg hc]
    rw [h]
    exact h

/-- The directory/image character map sends a non-punctuation character to
a non-punctuation, non-space, lowercase-fixed character. -/
theorem dirMap_props (c : Char) (h : c ∉ punctChars) :
    dirMap c ∉ punctChars ∧ dirMap c ≠ ' ' ∧ pyLower (dirMap c) = dirMap c := by
  by_cases hsp : c = ' '
  · subst hsp
    exact ⟨by decide, by decide, by decide⟩
  · have hd : dirMap c = pyLower c := by
      unfold dirMap
      rw [if_neg hsp]
    rw [hd]
    exact ⟨pyLower_not_mem_punct c h, pyLower_ne_space c hsp, pyLower_idem c⟩

/-- Generic-mode replacement produces only non-illegal characters and is
fixed on them. -/
theorem replIllegal_props (c : Char) :
    replIllegal c ∉ illegalChars ∧ replIllegal (replIllegal c) = replIllegal c := by
  by_cases hc : c ∈ illegalChars
  · have h : replIllegal c = '_' := by
      unfold replIllegal
      rw [if_pos hc]
    rw [h]
    exact ⟨by decide, by decide⟩
  · have h : replIllegal c = c := by
      unfold replIllegal
      rw [if_neg hc]
    rw [h]
    exact ⟨hc, h⟩

/-! ## Strip and truncation facts -/

/-- The head surviving a `dropWhile` fails the predicate. -/
theorem head_dropWhile_false {p : Char → Bool} :
    ∀ (l : Str) (c : Char), (l.dropWhile p).head? = some c → p c = false := by
  intro l
  induction l with
  | nil => intro c h; exact Option.noConfusion h
  | cons a t ih =>
    intro c h
    rw [List.dropWhile_cons] at h
    split at h
    · exact ih c h
    · rename_i hp
      rw [List.head?_cons] at h
      cases Option.some.inj h
      simpa using hp

/-- Stripping from the back preserves the head. -/
theorem head_backStrip {p : Char → Bool} (A : Str) (c : Char)
    (h : ((A.reverse.dropWhile p).reverse).head? = some c) :
    A.head? = some c := by
  have hA : (A.reverse.dropWhile p).reverse ++
      (A.reverse.takeWhile p).reverse = A := by
    rw [← List.reverse_append, List.takeWhile_append_dropWhile,
      List.reverse_reverse]
  cases hB : (A.reverse.dropWhile p).reverse with
  | nil => rw [hB] at h; exact Option.noConfusion h
  | cons b B =>
    rw [hB] at h hA
    rw [List.head?_cons] at h
    rw [← hA, List.cons_append, List.head?_cons]
    exact h

/-- The head of a stripped string fails the strip predicate. -/
theorem head_pyStrip (s : Str) (c : Char)
    (h : (pyStrip s).head? = some c) : decide (c ∈ stripChars) = false := by
  unfold pyStrip at h
  exact head_dropWhile_false s c
    (head_backStrip (s.dropWhile (fun c => decide (c ∈ stripChars))) c h)

/-- Stripping only removes characters. -/
theorem mem_pyStrip (s : Str) (c : Char) (h : c ∈ pyStrip s) : c ∈ s := by
  unfold pyStrip at h
  rw [List.mem_reverse] at h
  have h2 := (List.dropWhile_sublist
    (l := (s.dropWhile (fun c => decide (c ∈ stripChars))).reverse)
    (fun c => decide (c ∈ stripChars))).subset h
  rw [List.mem_reverse] at h2
  exact (List.dropWhile_sublist
    (l := s) (fun c => decide (c ∈ stripChars))).subset h2

/-- A string whose ends are not strip characters is not changed by
`strip(' .')`. -/
theorem pyStrip_eq_self (l : Str)
    (h1 : ∀ c, l.head? = some c → decide (c ∈ stripChars) = false)
    (h2 : ∀ c, l.getLast? = some c → decide (c ∈ stripChars) = false) :
    pyStrip l = l := by
  unfold pyStrip
  have hd : l.dropWhile (fun c => decide (c ∈ stripChars)) = l := by
    cases l with
    | nil => rfl
    | cons a t =>
      rw [List.dropWhile_cons, if_neg]
      rw [h1 a (List.head?_cons)]
      exact Bool.false_ne_true
  rw [hd]
  have hd2 : l.reverse.dropWhile (fun c => decide (c ∈ stripChars)) =
      l.reverse := by
    cases hl : l.reverse with
    | nil => rfl
    | cons a t =>
      have ha : l.getLast? = some a := by
        rw [← List.head?_reverse, hl, List.head?_cons]
      rw [List.dropWhile_cons, if_neg]
      rw [h2 a ha]
      exact Bool.false_ne_true
  rw [hd2, List.reverse_reverse]

/-- Taking a positive prefix preserves the head. -/
theorem head_take (n : Nat) (l : Str) (c : Char) (hn : 0 < n)
    (h : (l.take n).head? = some c) : l.head? = some c := by
  cases l with
  | nil => rw [List.take_nil] at h; exact Option.noConfusion h
  | cons a t =>
    match n, hn with
    | m + 1, _ =>
      rw [List.take_succ_cons, List.head?_cons] at h
      rw [List.head?_cons]
      exact h

/-- The sanitizer never returns more than 200 characters. -/
theorem sanitize_length_le (name : Str) (d i : Bool) :
    (sanitize_filename name d i).length ≤ 200 := by
  unfold sanitize_filename
  split
  · rw [List.length_take]
    omega
  · omega

/-- Pointwise-fixed maps are the identity. -/
theorem map_id_of_mem {f : Char → Char} :
    ∀ (l : Str), (∀ c ∈ l, f c = c) → l.map f = l := by
  intro l
  induction l with
  | nil => intro _; rfl
  | cons a t ih =>
    intro h
    rw [List.map_cons, h a (List.mem_cons_self a t),
      ih (fun c hc => h c (List.mem_cons_of_mem a hc))]

/-- In directory/image mode every character of the first pass is
non-punctuation, non-space and lowercase-fixed. -/
theorem pass1_mem_dir (name : Str) (d i : Bool) (hm : (d || i) = true) :
    ∀ c ∈ pass1 name d i, c ∉ punctChars ∧ c ≠ ' ' ∧ pyLower c = c := by
  intro c hc
  unfold pass1 at hc
  rw [hm] at hc
  simp only [if_true] at hc
  obtain ⟨c₀, hc₀, rfl⟩ := List.mem_map.mp hc
  have h₀ : c₀ ∉ punctChars := by
    have := (List.mem_filter.mp hc₀).2
    simpa using this
  exact dirMap_props c₀ h₀

/-- In generic mode every character of the first pass is fixed by another
replacement pass. -/
theorem pass1_mem_generic (name : Str) (d i : Bool) (hm : (d || i) = false) :
    ∀ c ∈ pass1 name d i, replIllegal c = c := by
  intro c hc
  unfold pass1 at hc
  rw [hm] at hc
  simp only [Bool.false_eq_true, if_false] at hc
  obtain ⟨c₀, hc₀, rfl⟩ := List.mem_map.mp hc
  exact (replIllegal_props c₀).2

/-- Every character of the sanitized output comes from the first pass. -/
theorem mem_sanitize_sub (name : Str) (d i : Bool) (c : Char)
    (h : c ∈ sanitize_filename name d i) : c ∈ pass1 name d i := by
  unfold sanitize_filename at h
  split at h
  · exact mem_pyStrip _ c (List.take_subset 200 _ h)
  · exact mem_pyStrip _ c h

/-- A directory/image-mode output is fixed by another first pass. -/
theorem pass1_fix_dir (y : Str) (d i : Bool) (hm : (d || i) = true)
    (hchars : ∀ c ∈ y, c ∉ punctChars ∧ c ≠ ' ' ∧ pyLower c = c) :
    pass1 y d i = y := by
  unfold pass1
  rw [hm]
  simp only [if_true]
  rw [List.filter_eq_self.mpr (fun c hc => by
    rw [decide_eq_false (hchars c hc).1]
    rfl)]
  exact map_id_of_mem y (fun c hc => by
    unfold dirMap
    rw [if_neg (hchars c hc).2.1]
    exact (hchars c hc).2.2)

/-- A generic-mode output is fixed by another first pass. -/
theorem pass1_fix_generic (y : Str) (d i : Bool) (hm : (d || i) = false)
    (hchars : ∀ c ∈ y, replIllegal c = c) : pass1 y d i = y := by
  unfold pass1
  rw [hm]
  simp only [Bool.false_eq_true, if_false]
  exact map_id_of_mem y hchars

/-- The head of the sanitized output is not a strip character. -/
theorem head_sanitize (name : Str) (d i : Bool) :
    ∀ c, (sanitize_filename name d i).head? = some c →
      decide (c ∈ stripChars) = false := by
  intro c hc
  unfold sanitize_filename at hc
  split at hc
  · exact head_pyStrip _ c (head_take 200 _ c (by omega) hc)
  · exact head_pyStrip _ c hc

/-- **C4 (amended).** The sanitizer is idempotent on every input whose
sanitized form does not end in a space or a dot — in particular on every
input that needs no truncation.  (Idempotence can only fail when the final
200-character truncation re-exposes a trailing space or dot that the trim
had been applied before.) -/
theorem sanitize_idempotent_unless_truncation_exposes (name : Str)
    (d i : Bool)
    (h1 : (sanitize_filename name d i).getLast? ≠ some ' ')
    (h2 : (sanitize_filename name d i).getLast? ≠ some '.') :
    sanitize_filename (sanitize_filename name d i) d i =
      sanitize_filename name d i := by
  have hlen := sanitize_length_le name d i
  have hhead := head_sanitize name d i
  have hlast : ∀ c, (sanitize_filename name d i).getLast? = some c →
      decide (c ∈ stripChars) = false := by
    intro c hc
    have hcs : c ≠ ' ' := fun he => h1 (he ▸ hc)
    have hcd : c ≠ '.' := fun he => h2 (he ▸ hc)
    apply decide_eq_false
    intro hmem
    simp only [stripChars, List.mem_cons, List.not_mem_nil, or_false] at hmem
    rcases hmem with h | h
    · exact hcs h
    · exact hcd h
  have hfix : pass1 (sanitize_filename name d i) d i =
      sanitize_filename name d i := by
    cases hm : (d || i) with
    | true =>
      exact pass1_fix_dir _ d i hm
        (fun c hc => pass1_mem_dir name d i hm c (mem_sanitize_sub name d i c hc))
    | false =>
      exact pass1_fix_generic _ d i hm
        (fun c hc => pass1_mem_generic name d i hm c
          (mem_sanitize_sub name d i c hc))
  set y := sanitize_filename name d i with hy
  unfold sanitize_filename
  rw [hfix, pyStrip_eq_self y hhead hlast]
  rw [if_neg (by omega)]

def xC4 : Str := List.replicate 199 'a' ++ ['.', ' ', 'b']

set_option maxRecDepth 40000 in
/-- Counterexample to C4 as stated: a 202-character name whose trim leaves
202 characters; truncation to 200 then exposes a trailing dot, which the
second application trims away, so applying the sanitizer twice differs
from applying it once (generic mode shown). -/
theorem sanitize_not_idempotent_counterexample :
    sanitize_filename (sanitize_filename xC4 false false) false false ≠
      sanitize_filename xC4 false false := by decide

/-- Witness for the amended C4: a name whose sanitized form ends in a
normal letter is a fixed point of a second application (directory mode). -/
theorem sanitize_idempotent_witness :
    (sanitize_filename "Hello World: Draft?.txt".data true false).getLast? ≠
      some ' ' ∧
    (sanitize_filename "Hello World: Draft?.txt".data true false).getLast? ≠
      some '.' ∧
    sanitize_filename
        (sanitize_filename "Hello World: Draft?.txt".data true false)
        true false =
      sanitize_filename "Hello World: Draft?.txt".data true false :=
  ⟨by decide, by decide,
   sanitize_idempotent_unless_truncation_exposes
     "Hello World: Draft?.txt".data true false (by decide) (by decide)⟩

/-! ## The sanitizer against the specification's wording -/

/-- The three sanitizer modes named by the specification. -/
inductive Mode where
  | generic
  | directory
  | image
deriving DecidableEq

/-- The shared tail of both pipelines: trim leading/trailing spaces and
dots, truncate to at most 200 characters. -/
def trimTruncate (n : Str) : Str :=
  if 200 < (pyStrip n).length then (pyStrip n).take 200 else pyStrip n

/-- Modelled from the spec's words (§4.1): `generic` replaces the illegal
characters with `_`; `directory`/`image` strip the broader punctuation set
entirely (rather than replacing it), lowercase the result and replace
internal spaces with `_`; every mode then trims leading/trailing spaces and
dots and truncates to 200 characters. -/
def sanitizeSpec (name : Str) : Mode → Str
  | .generic => trimTruncate (name.map replIllegal)
  | .directory | .image =>
      trimTruncate (((name.filter (fun c => !decide (c ∈ punctChars))).map
        pyLower).map (fun c => if c = ' ' then '_' else c))

/-- Replacing spaces after lowercasing equals the source's order of
replacing spaces before lowercasing. -/
theorem spaceRepl_pyLower (c : Char) :
    (if pyLower c = ' ' then '_' else pyLower c) = dirMap c := by
  by_cases hsp : c = ' '
  · subst hsp
    decide
  · rw [if_neg (pyLower_ne_space c hsp)]
    unfold dirMap
    rw [if_neg hsp]

/-- The directory/image first pass equals the spec-ordered pipeline. -/
theorem pass1_dir_eq_spec (name : Str) (d i : Bool) (hm : (d || i) = true) :
    pass1 name d i =
      ((name.filter (fun c => !decide (c ∈ punctChars))).map pyLower).map
        (fun c => if c = ' ' then '_' else c) := by
  unfold pass1
  rw [hm]
  simp only [if_true]
  rw [List.map_map]
  exact List.map_congr_left (fun c _ => (spaceRepl_pyLower c).symm)

/-- **C5.** Mode behaviour of the sanitizer: the source's
`sanitize_filename` agrees with the specification's description in all
three modes — generic replaces the illegal characters with `_`;
directory/image strip the broader punctuation set entirely, lowercase, and
replace internal spaces with `_`; every mode trims leading/trailing spaces
and dots and truncates to at most 200 characters. -/
theorem sanitize_modes_match_spec (name : Str) :
    sanitize_filename name false false = sanitizeSpec name Mode.generic ∧
    sanitize_filename name true false = sanitizeSpec name Mode.directory ∧
    sanitize_filename name false true = sanitizeSpec name Mode.image ∧
    (sanitize_filename name false false).length ≤ 200 ∧
    (sanitize_filename name true false).length ≤ 200 ∧
    (sanitize_filename name false true).length ≤ 200 := by
  refine ⟨rfl, ?_, ?_, sanitize_length_le name false false,
    sanitize_length_le name true false, sanitize_length_le name false true⟩
  · exact congrArg trimTruncate (pass1_dir_eq_spec name true false rfl)
  · exact congrArg trimTruncate (pass1_dir_eq_spec name false true rfl)

/-! ## Image extension normalization -/

/-- `splitext`'s extension (reversed-basename form) is a suffix of the
basename it came from. -/
theorem extFromRev_suffix (r : Str) :
    ∃ pre, r.reverse = pre ++ extFromRev r := by
  unfold extFromRev
  split
  · exact ⟨r.reverse, (List.append_nil _).symm⟩
  · split
    · exact ⟨r.reverse, (List.append_nil _).symm⟩
    · rename_i hlen _
      have hsplit := List.takeWhile_append_dropWhile
        (fun c => decide (c ≠ '.')) r
      cases hd : r.dropWhile (fun c => decide (c ≠ '.')) with
      | nil =>
        rw [hd, List.append_nil] at hsplit
        exact absurd (congrArg List.length hsplit) hlen
      | cons b rest =>
        have hb : b = '.' := by
          have := head_dropWhile_false r b (by rw [hd]; rfl)
          simpa using this
        subst hb
        refine ⟨rest.reverse, ?_⟩
        have hr : r = List.takeWhile (fun c => decide (c ≠ '.')) r ++
            '.' :: rest := by
          conv_lhs => rw [← hsplit]
          rw [hd]
        conv_lhs => rw [hr]
        rw [List.reverse_append, List.reverse_cons, List.append_assoc]
        rfl

/-- `splitext(p)[1]` is a suffix of `p`. -/
theorem splitextExt_suffix (p : Str) : ∃ pre, p = pre ++ splitextExt p := by
  unfold splitextExt
  obtain ⟨pre1, h1⟩ := extFromRev_suffix
    (p.reverse.takeWhile (fun c => c ≠ '/'))
  have hp : (p.reverse.dropWhile (fun c => decide (c ≠ '/'))).reverse ++
      (p.reverse.takeWhile (fun c => decide (c ≠ '/'))).reverse = p := by
    rw [← List.reverse_append, List.takeWhile_append_dropWhile,
      List.reverse_reverse]
  refine ⟨(p.reverse.dropWhile (fun c => decide (c ≠ '/'))).reverse ++ pre1, ?_⟩
  rw [List.append_assoc, ← h1, hp]

/-- Anything ending in an accepted extension passes the suffix check. -/
theorem endsWithValidExt_of_append (pre e : Str)
    (he : e ∈ validExtensions) : endsWithValidExt (pre ++ e) = true := by
  unfold endsWithValidExt
  rw [List.any_eq_true]
  refine ⟨e, he, ?_⟩
  rw [List.length_append]
  have h : pre.length + e.length - e.length = pre.length := by omega
  rw [h, List.drop_left]
  exact decide_eq_true rfl

/-- Image-mode sanitizer output is all lowercase-fixed, so lowercasing its
extension changes nothing. -/
theorem splitextExt_sanitize_lower_fix (name : Str) :
    (splitextExt (sanitize_filename name false true)).map pyLower =
      splitextExt (sanitize_filename name false true) := by
  apply map_id_of_mem
  intro c hc
  obtain ⟨pre, hp⟩ := splitextExt_suffix (sanitize_filename name false true)
  have hcs : c ∈ sanitize_filename name false true := by
    rw [hp]
    exact List.mem_append.mpr (Or.inr hc)
  exact (pass1_mem_dir name false true rfl c
    (mem_sanitize_sub name false true c hcs)).2.2

/-- The sanitized image name in image mode. -/
def sanitizeImageMode (name : Str) : Str := sanitize_filename name false true

/-- The lowercased extension parsed from the download URL's path. -/
def urlExtOf (url : Str) : Str := (splitextExt (urlparsePath url)).map pyLower

/-- The lowercased extension of the sanitized image name. -/
def currentExtOf (name : Str) : Str :=
  (splitextExt (sanitizeImageMode name)).map pyLower

/-- **C7.** For every image with a resolved download URL: when the
sanitized name's extension is not in the accepted set, the extension parsed
from the URL is appended if accepted, else `.jpg`; consequently the final
on-disk image name always ends in an accepted extension, with `.jpg` as the
fallback when the URL's extension is unresolvable. -/
theorem image_extension_normalized (name url : Str) :
    normalizeImageName name url =
      (if currentExtOf name ∈ validExtensions then sanitizeImageMode name
       else sanitizeImageMode name ++
         (if urlExtOf url ∈ validExtensions then urlExtOf url
          else ".jpg".data)) ∧
    endsWithValidExt (normalizeImageName name url) = true := by
  constructor
  · rfl
  · show endsWithValidExt
      (if (splitextExt (sanitize_filename name false true)).map pyLower ∈
          validExtensions
       then sanitize_filename name false true
       else sanitize_filename name false true ++
         (if (splitextExt (urlparsePath url)).map pyLower ∈ validExtensions
          then (splitextExt (urlparsePath url)).map pyLower
          else ".jpg".data)) = true
    split
    · rename_i hcur
      rw [splitextExt_sanitize_lower_fix name] at hcur
      obtain ⟨pre, hp⟩ := splitextExt_suffix (sanitize_filename name false true)
      rw [hp]
      exact endsWithValidExt_of_append pre _ hcur
    · split
      · rename_i hurl
        exact endsWithValidExt_of_append _ _ hurl
      · exact endsWithValidExt_of_append _ _ (by decide)

end AATT
